import Mathlib

/-!
Verification of the HMT spending normalization engine
(`scripts/fetch_hmt_spending_data.py` and `apps/pipeline/fetch_hmt_spending_data.py`).

The engine is shallowly embedded: pandas dataframes become lists of columns of
`Cell`s, pandas string/number operations become explicit Lean functions, and
Python floats are modelled as exact rationals (the value `float('nan')` that
pandas uses for a missing entry is modelled by `Cell.null` / `Option.none`;
where the code can surface a bare NaN as a *result*, the type `PyFloat` keeps
it distinct from a missing value).
-/

namespace HMT

/-- A dataframe cell: missing (`NaN`/`None`), a string, or a number.
Python floats are modelled as exact rationals. -/
inductive Cell where
  | null
  | str (s : String)
  | num (q : ℚ)
deriving DecidableEq, Repr

/-- Whether a cell is missing (pandas `isna`). -/
def Cell.isNull : Cell → Bool
  | Cell.null => true
  | _ => false

/-- Whether a cell holds a string. -/
def Cell.isStr : Cell → Bool
  | Cell.str _ => true
  | _ => false

/-- Whether a cell holds a number. -/
def Cell.isNum : Cell → Bool
  | Cell.num _ => true
  | _ => false

/-- Python `str.strip` whitespace set (ASCII part, which is what the data uses). -/
def pyWhitespace : List Char := [' ', '\t', '\n', '\r', '\x0b', '\x0c']

/-- Trim `str.strip`-style whitespace from both ends of a char list. -/
def stripChars (l : List Char) : List Char :=
  ((l.dropWhile (fun c => pyWhitespace.contains c)).reverse.dropWhile
    (fun c => pyWhitespace.contains c)).reverse

/-- Python `s.strip()`. -/
def pyStrip (s : String) : String := String.mk (stripChars s.toList)

/-- Python `string.punctuation` (exact ASCII set used by `canon`). -/
def pyPunctuation : List Char :=
  ['!', '"', '#', '$', '%', '&', '\x27', '(', ')', '*', '+', ',', '-', '.', '/',
   ':', ';', '<', '=', '>', '?', '@', '[', '\\', ']', '^', '_', '\x60', '\x7b',
   '|', '\x7d', '~']

/-- `canon(s)`: `str(s).strip().lower()` then delete punctuation and spaces
(`str.maketrans("", "", string.punctuation + " ")`).  `Char.toLower` agrees
with Python `lower` on the ASCII labels this pipeline sees. -/
def canon (s : String) : String :=
  String.mk (((stripChars s.toList).map Char.toLower).filter
    (fun c => !(pyPunctuation.contains c || c == ' ')))

/-- Does `p` occur at the head of `l`? (helper for substring matching). -/
def leadMatch : List Char → List Char → Bool
  | [], _ => true
  | _ :: _, [] => false
  | a :: ps, b :: ls => a == b && leadMatch ps ls

/-- Does `needle` occur as a contiguous substring of `hay`?  Models Python
`needle in hay` on strings. -/
def occursIn (needle : List Char) : List Char → Bool
  | [] => needle.isEmpty
  | l@(_ :: t) => leadMatch needle l || occursIn needle t

/-- Python `a in b` for strings. -/
def strOccursIn (a b : String) : Bool := occursIn a.toList b.toList

/-- The `ALIASES` registry, copied verbatim from the source (dict insertion
order preserved as list order). -/
def ALIASES : List (String × List String) :=
  [ ("department_family", ["department family", "department", "departmentfamily"]),
    ("entity",            ["entity", "body", "entity name"]),
    ("date",              ["payment date", "date", "transaction date", "paid date"]),
    ("expense_type",      ["expense type", "expenditure type", "type", "category"]),
    ("expense_area",      ["expense area", "cost centre", "cost center", "costcentre", "directorate", "unit"]),
    ("supplier",          ["supplier", "vendor", "supplier name", "payee", "recipient"]),
    ("transaction_number", ["voucher number", "transaction number", "transaction no", "transaction id", "reference", "ref"]),
    ("amount_gbp",        ["amount", "amount gbp", "amount £", "amount(£)", "£", "gbp", "net amount", "value", "amount (gbp)", "amount (excl vat)", "amount excluding vat"]),
    ("description",       ["publication description", "description", "item text", "narrative", "spend description", "notes"]),
    ("supplier_postcode", ["supplier postcode", "postal code", "post code", "postcode"]),
    ("supplier_type",     ["supplier type", "supplier category", "organisation type", "organization type"]),
    ("contract_number",   ["contract number", "contract no", "po number", "purchase order", "purchase order no", "purchase order number"]),
    ("project_code",      ["project code", "project", "cost code", "programme code", "program code"]),
    ("item_text",         ["item text", "line description"]) ]

/-- `ALIASES_CANON`: each alias canonicalized.  The Python value is a dict of
sets; only membership and existential tests are performed on it, so a list
models it faithfully. -/
def ALIASES_CANON : List (String × List String) :=
  ALIASES.map (fun kv => (kv.1, kv.2.map canon))

/-- The canonical output fields, in registry (dict-insertion) order:
`ALIASES_CANON.keys()`. -/
def CANON_KEYS : List String := ALIASES.map (fun kv => kv.1)

/-- Index of the first element satisfying `p` (Python
`next((i for i, x in enumerate(l) if p x), None)`). -/
def firstIdxWhere (p : α → Bool) : List α → Option ℕ
  | [] => none
  | a :: t => if p a then some 0 else (firstIdxWhere p t).map (· + 1)

/-- One field of `map_columns`: first exact alias match on the canonicalized
headers, else first lenient (substring-containment) match, else `none`.
`lc` is the list of canonicalized header labels. -/
def resolveField (lc : List String) (aliasSet : List String) : Option ℕ :=
  match firstIdxWhere (fun cc => aliasSet.contains cc) lc with
  | some i => some i
  | none => firstIdxWhere (fun cc => aliasSet.any (fun a => strOccursIn a cc)) lc

/-- `map_columns`: the mapping dict, built in registry order.  The Python code
stores the header *label* `cols[idx]`; we store the index `idx`, which is what
the label is subsequently used for (column extraction). -/
def mapColumns (headers : List String) : List (String × ℕ) :=
  let lc := headers.map canon
  ALIASES_CANON.foldl
    (fun m kv =>
      match resolveField lc kv.2 with
      | some i => m ++ [(kv.1, i)]
      | none => m)
    []

/-! ### Amount coercion (`parse_amount`) -/

/-- Fuel-driven decimal rendering (structural recursion so that concrete
instances evaluate; `natDigitsAux_eq` ties it to `Nat.digits`). -/
def natDigitsAux : ℕ → ℕ → List Char
  | 0, _ => []
  | _ + 1, 0 => []
  | fuel + 1, n => natDigitsAux fuel (n / 10) ++ [Char.ofNat (n % 10 + 48)]

/-- Decimal digits of a natural number (most significant first); Python
`str(n)` for a positive integer. -/
def natDigits (n : ℕ) : List Char := natDigitsAux n n

/-- Python `str(n)` on a natural number (handles `0`). -/
def natStr (n : ℕ) : String :=
  if n = 0 then "0" else String.mk (natDigits n)

/-- Python `str(n)` on an integer. -/
def intStr (i : ℤ) : String :=
  if i < 0 then "-" ++ natStr i.natAbs else natStr i.natAbs

/-- Least `k ≤ 20` with `d ∣ 10 ^ k`, if any (finite decimal expansion test). -/
def pow10Exp (d : ℕ) : Option ℕ :=
  (List.range 21).find? (fun k => decide (d ∣ 10 ^ k))

/-- Render a rational the way Python renders the same value as a `float`,
for values with a short finite decimal expansion (the only values the
pipeline materializes); other rationals fall back to `num/den` form.  Only
reachable through `astype(str)` on a mixed-type column, a corner no claim
depends on. -/
def ratRender (q : ℚ) : String :=
  match pow10Exp q.den with
  | some 0 => intStr q.num ++ ".0"
  | some k =>
      let scaled : ℕ := q.num.natAbs * ((10 ^ k) / q.den)
      let ip := scaled / 10 ^ k
      let fp := scaled % 10 ^ k
      let fs := natStr fp
      (if q.num < 0 then "-" else "") ++ natStr ip ++ "." ++
        String.mk (List.replicate (k - fs.length) '0') ++ fs
  | none => intStr q.num ++ "/" ++ natStr q.den

/-- Python `str(x)` as applied by `Series.astype(str)`: a missing value
renders as `"nan"` (the float-NaN spelling; a `None` in an object column
would render `"None"`, which likewise contains no digits, so every use in
the pipeline is insensitive to the difference), strings are unchanged,
numbers render decimally. -/
def pyStrOfCell : Cell → String
  | Cell.null => "nan"
  | Cell.str s => s
  | Cell.num q => ratRender q

/-- Remove `","` and `"£"` (the two `str.replace` calls). -/
def removeCommasPounds (l : List Char) : List Char :=
  l.filter (fun c => !(c == ',' || c == '£'))

/-- The regex rewrite `^\((.*)\)$` → `-\1`: a fully parenthesized value
becomes negated. -/
def parenNeg (l : List Char) : List Char :=
  match l with
  | '(' :: rest =>
      match rest.getLast? with
      | some c => if c = ')' then '-' :: rest.dropLast else l
      | none => l
  | _ => l

/-- Longest run of ASCII digits at the head. -/
def digitsRun (l : List Char) : List Char := l.takeWhile Char.isDigit

/-- What follows the longest head digit run. -/
def afterRun (l : List Char) : List Char := l.dropWhile Char.isDigit

/-- Match `\d+(?:\.\d+)?` at the head of `m`: the greedy digit run, then an
optional dot-plus-digits group. -/
def numCore (m : List Char) : Option (List Char × List Char) :=
  match digitsRun m with
  | [] => none
  | ds =>
      match afterRun m with
      | '.' :: r2 =>
          match digitsRun r2 with
          | [] => some (ds, [])
          | fs => some (ds, fs)
      | _ => some (ds, [])

/-- Try to match the regex `-?\d+(?:\.\d+)?` starting exactly at the head of
`l`; returns (negative?, integer digits, fractional digits). -/
def numAt (l : List Char) : Option (Bool × List Char × List Char) :=
  match l with
  | '-' :: rest => (numCore rest).map (fun r => (true, r))
  | _ => (numCore l).map (fun r => (false, r))

/-- `Series.str.extract(r"(-?\d+(?:\.\d+)?)")`: the leftmost match of the
signed-decimal regex, scanning positions left to right. -/
def scanNum : List Char → Option (Bool × List Char × List Char)
  | [] => none
  | l@(_ :: t) =>
      match numAt l with
      | some r => some r
      | none => scanNum t

/-- Numeric value of a digit run. -/
def digitsToNat (ds : List Char) : ℕ :=
  ds.foldl (fun a c => 10 * a + (c.toNat - 48)) 0

/-- Value of a matched signed decimal. -/
def numValue (neg : Bool) (ds fs : List Char) : ℚ :=
  let m : ℚ := (digitsToNat ds : ℚ) + (digitsToNat fs : ℚ) / ((10 : ℚ) ^ fs.length)
  if neg then -m else m

/-- The textual branch of `parse_amount` on one value: strip, remove
thousands separators and pound signs, rewrite `(X)` to `-X`, extract the
first signed-decimal substring, and parse (`pd.to_numeric(..., errors="coerce")`
on a clean decimal never fails; no match coerces to null). -/
def parseAmountStr (s : String) : Option ℚ :=
  match scanNum (parenNeg (removeCommasPounds (stripChars s.toList))) with
  | some (neg, ds, fs) => some (numValue neg ds fs)
  | none => none

/-- `pd.api.types.is_numeric_dtype`: a column that contains no string cell
was materialized as a numeric (or all-NaN float) dtype; any string forces
object dtype. -/
def isNumericDtype (col : List Cell) : Bool := col.all (fun c => !c.isStr)

/-- `parse_amount` on a column: numeric dtype casts through `astype(float)`
(missing stays missing); otherwise each value goes through
`astype(str).str.strip()` and the textual pipeline. -/
def parseAmount (col : List Cell) : List (Option ℚ) :=
  if isNumericDtype col then
    col.map (fun c => match c with | Cell.num q => some q | _ => none)
  else
    col.map (fun c => parseAmountStr (pyStrOfCell c))

/-! ### Fiscal year label (`uk_fiscal_year_label`) -/

/-- Python `str(n)[-2:]`: the last two characters of the decimal rendering. -/
def lastTwoChars (n : ℕ) : String :=
  let l := (natStr n).toList
  String.mk (l.drop (l.length - 2))

/-- `uk_fiscal_year_label`: month ≥ April uses `{year}-{str(year+1)[-2:]}`,
January–March uses `{year-1}-{str(year)[-2:]}`. -/
def uk_fiscal_year_label (year month : ℕ) : String :=
  if 4 ≤ month then natStr year ++ "-" ++ lastTwoChars (year + 1)
  else natStr (year - 1) ++ "-" ++ lastTwoChars year

/-! ### Sheet selection (`pick_best_sheet`) -/

/-- One worksheet: its name and, when the header row is readable, its column
labels; `none` models `pd.read_excel` raising (the `except: continue`). -/
structure Sheet where
  name : String
  cols : Option (List String)
deriving DecidableEq

/-- The signal set `{"supplier","amount","date"}` (iterated only through
order-insensitive `sum`/`any`, so a list models the Python set faithfully). -/
def SIGNALS : List String := ["supplier", "amount", "date"]

/-- Score of one sheet: how many signal terms occur as substrings of some
canonicalized column label. -/
def sheetScore (cols : List String) : ℕ :=
  (SIGNALS.filter (fun sig => (cols.map canon).any (fun c => strOccursIn sig c))).length

/-- The `scores` list: `(score, name)` for each readable sheet, in workbook
order. -/
def sheetScores (wb : List Sheet) : List (ℕ × String) :=
  wb.filterMap (fun sh => sh.cols.map (fun cs => (sheetScore cs, sh.name)))

/-- Python tuple comparison `(s₁,n₁) < (s₂,n₂)` on `(int, str)` pairs. -/
def tupleLt (a b : ℕ × String) : Prop := a.1 < b.1 ∨ (a.1 = b.1 ∧ a.2 < b.2)

instance : DecidableRel tupleLt := fun a b => by
  unfold tupleLt; infer_instance

/-- Non-strict version of `tupleLt`. -/
def tupleLe (a b : ℕ × String) : Prop := tupleLt a b ∨ a = b

instance : DecidableRel tupleLe := fun a b => by
  unfold tupleLe; infer_instance

/-- Insert into a descending-sorted list, keeping earlier elements first on
ties (Python `list.sort` is stable). -/
def insDesc (x : ℕ × String) : List (ℕ × String) → List (ℕ × String)
  | [] => [x]
  | y :: ys => if tupleLe y x then x :: y :: ys else y :: insDesc x ys

/-- `scores.sort(reverse=True)`: stable sort, descending in the
lexicographic `(score, name)` tuple order. -/
def sortScoresDesc : List (ℕ × String) → List (ℕ × String)
  | [] => []
  | a :: t => insDesc a (sortScoresDesc t)

/-- `pick_best_sheet`: if no sheet was readable fall back to the first sheet
name, else take the name of the greatest `(score, name)` tuple.  A workbook
always has at least one sheet (`pd.ExcelFile` guarantees it); the `getD ""`
defaults are unreachable under that precondition. -/
def pick_best_sheet (wb : List Sheet) : String :=
  match sheetScores wb with
  | [] => ((wb.head?).map Sheet.name).getD ""
  | ss => ((sortScoresDesc ss).head?.map Prod.snd).getD ""

/-! ### Date coercion (`parse_date`)

`pd.to_datetime(..., errors="coerce", dayfirst=True)` followed by
`strftime("%Y-%m-%d")`.  The embedding models the day-first parse of the
`d/m/y` (or `d-m-y`) textual forms the publications use, with pandas'
fallback swap when the middle component cannot be a month; all other inputs
coerce to null.  No claim depends on date parsing beyond null-propagation. -/

/-- Gregorian leap-year test. -/
def isLeap (y : ℕ) : Bool := (y % 4 == 0 && y % 100 != 0) || y % 400 == 0

/-- Days in a month. -/
def daysInMonth (y m : ℕ) : ℕ :=
  if m = 2 then (if isLeap y then 29 else 28)
  else if m = 4 ∨ m = 6 ∨ m = 9 ∨ m = 11 then 30 else 31

/-- Is `d/m/y` a real calendar date? -/
def validYmd (y m d : ℕ) : Bool :=
  decide (1 ≤ m) && decide (m ≤ 12) && decide (1 ≤ d) && decide (d ≤ daysInMonth y m)

/-- Parse a nonempty all-digit component. -/
def digitComp (l : List Char) : Option ℕ :=
  if l ≠ [] ∧ l.all Char.isDigit then some (digitsToNat l) else none

/-- Split a textual date into components and resolve day-first, with the
pandas swap fallback. -/
def dateComponents (s : String) : Option (ℕ × ℕ × ℕ) :=
  match ((pyStrip s).split (fun c => c == '/' || c == '-')).map (fun p => digitComp p.toList) with
  | [some a, some b, some c] =>
      if c < 1000 then none
      else if validYmd c b a then some (c, b, a)
      else if validYmd c a b then some (c, a, b)
      else none
  | _ => none

/-- Zero-padded 4-digit year. -/
def pad4 (n : ℕ) : String :=
  String.mk (List.replicate (4 - (natStr n).length) '0') ++ natStr n

/-- Zero-padded 2-digit component. -/
def pad2 (n : ℕ) : String :=
  String.mk (List.replicate (2 - (natStr n).length) '0') ++ natStr n

/-- `strftime("%Y-%m-%d")`. -/
def isoOfYmd (y m d : ℕ) : String := pad4 y ++ "-" ++ pad2 m ++ "-" ++ pad2 d

/-- One cell of `parse_date`: unparseable or missing coerces to null. -/
def parseDateCell : Cell → Cell
  | Cell.str s =>
      match dateComponents s with
      | some (y, m, d) => Cell.str (isoOfYmd y m d)
      | none => Cell.null
  | _ => Cell.null

/-- `parse_date` on a column. -/
def parseDate (col : List Cell) : List Cell := col.map parseDateCell

/-! ### Row normalization (`normalize_dataframe`) -/

/-- A raw input table: publisher-defined header labels and rows of cells
(one cell per header). -/
structure RawTable where
  headers : List String
  rows : List (List Cell)

/-- Column `i` of a raw table (missing cells read as null, irrelevant for
well-formed tables). -/
def colAt (t : RawTable) (i : ℕ) : List Cell :=
  t.rows.map (fun r => r.getD i Cell.null)

/-- The column placed under canonical key `k` before value coercion:
`df[mapping[k]] if k in mapping else None` (an all-null column). -/
def rawOutCol (t : RawTable) (k : String) : List Cell :=
  match (mapColumns t.headers).lookup k with
  | some i => colAt t i
  | none => List.replicate t.rows.length Cell.null

/-- Repack an optional rational as a cell. -/
def cellOfOptQ : Option ℚ → Cell
  | some q => Cell.num q
  | none => Cell.null

/-- `transaction_number` coercion:
`astype(str).str.strip().replace({"nan": None})`. -/
def txnCell (c : Cell) : Cell :=
  let s := pyStrip (pyStrOfCell c)
  if s = "nan" then Cell.null else Cell.str s

/-- The column under key `k` after the three per-column coercions. -/
def transCol (t : RawTable) (k : String) : List Cell :=
  let c := rawOutCol t k
  if k = "date" then parseDate c
  else if k = "amount_gbp" then (parseAmount c).map cellOfOptQ
  else if k = "transaction_number" then c.map txnCell
  else c

/-- The keep-mask `~(supplier.isna() & amount_gbp.isna())`, `true` = keep. -/
def dropMask (t : RawTable) : List Bool :=
  List.zipWith (fun s a => !(s.isNull && a.isNull))
    (transCol t "supplier") (transCol t "amount_gbp")

/-- Boolean-mask row selection, applied to one column. -/
def maskFilter : List Bool → List α → List α
  | true :: ms, a :: as => a :: maskFilter ms as
  | false :: ms, _ :: as => maskFilter ms as
  | _, _ => []

/-- The indices the mask keeps, in increasing order. -/
def keptIdx : List Bool → List ℕ
  | [] => []
  | b :: t => (if b then [0] else []) ++ (keptIdx t).map (· + 1)

/-- `pd.api.types.is_string_dtype` on an object column (pandas 2 semantics:
`is_all_strings` with `skipna=False`, so any missing or numeric cell makes
it false; on an empty column the operation it guards is the identity). -/
def isStringDtype (col : List Cell) : Bool := col.all Cell.isStr

/-- `str.strip().replace({"": None})` on one cell (`.str` accessors leave
non-strings untouched here because the dtype guard has already ruled them
out). -/
def stripEmptyCell : Cell → Cell
  | Cell.str s => let s2 := pyStrip s; if s2 = "" then Cell.null else Cell.str s2
  | c => c

/-- Conditional application of the empty-string normalization. -/
def postCell (flag : Bool) (c : Cell) : Cell :=
  if flag then stripEmptyCell c else c

/-- Whether the post-drop column under key `k` gets the empty-string
normalization. -/
def stripFlag (t : RawTable) (k : String) : Bool :=
  isStringDtype (maskFilter (dropMask t) (transCol t k))

/-- The final normalized column under key `k`: coerce, drop rows, normalize
empty strings. -/
def normCol (t : RawTable) (k : String) : List Cell :=
  let kept := maskFilter (dropMask t) (transCol t k)
  if isStringDtype kept then kept.map stripEmptyCell else kept

/-- The normalized dataframe, column-oriented (how pandas holds it). -/
def normFrame (t : RawTable) : List (String × List Cell) :=
  CANON_KEYS.map (fun k => (k, normCol t k))

/-- Number of surviving rows. -/
def nKept (t : RawTable) : ℕ := (dropMask t).count true

/-- A normalized row as a canonical-field record. -/
def NRow := List (String × Cell)

/-- Field access on a normalized row. -/
def fieldOf (r : List (String × Cell)) (k : String) : Cell :=
  (r.lookup k).getD Cell.null

/-- The normalized table in row form (`df.to_dict(orient="records")`). -/
def normRows (t : RawTable) : List (List (String × Cell)) :=
  (List.range (nKept t)).map
    (fun j => CANON_KEYS.map (fun k => (k, (normCol t k).getD j Cell.null)))

/-- The row the pipeline emits for surviving input row `i`: each coerced
cell of row `i`, with the empty-string normalization applied exactly when
the surviving column is all-strings. -/
def finalRow (t : RawTable) (i : ℕ) : List (String × Cell) :=
  CANON_KEYS.map (fun k => (k, postCell (stripFlag t k) ((transCol t k).getD i Cell.null)))

/-! ### Completeness scoring (`completeness_score_and_coverage`) -/

/-- The fixed core analytic fields. -/
def CORE_COLS : List String :=
  ["date", "supplier", "entity", "amount_gbp", "expense_type", "expense_area", "description"]

/-- Count of non-null cells in a column. -/
def nonNullCount (col : List Cell) : ℕ := (col.filter (fun c => !c.isNull)).length

/-- `completeness_score_and_coverage` (score and coverage label; the
`null_counts` third component is `nullCounts` below).  Scores are exact
rationals standing for the Python floats. -/
def completeness (frame : List (String × List Cell)) : ℚ × String :=
  let present := CORE_COLS.filter (fun c => (frame.map Prod.fst).contains c)
  if present = [] then (0, "unknown")
  else
    let cols := present.map (fun c => (frame.lookup c).getD [])
    let nonNull : ℕ := (cols.map nonNullCount).sum
    let total : ℕ := (cols.map List.length).sum
    let score : ℚ := if total = 0 then 0 else (nonNull : ℚ) / (total : ℚ)
    let coverage :=
      if score ≥ 9/10 then "complete"
      else if score ≥ 6/10 then "partial"
      else "limited"
    (score, coverage)

/-- The `null_counts` component. -/
def nullCounts (frame : List (String × List Cell)) : List (String × ℕ) :=
  frame.map (fun kc => (kc.1, (kc.2.filter Cell.isNull).length))

/-! ### Top-N groupings (`groups_top` / `group_top`) -/

/-- Total order used by `groupby(sort=True)` to sort group keys.  Key columns
hold strings in practice; the cross-type cases fix an arbitrary deterministic
order (real pandas raises on incomparable mixed keys). -/
def cellLe (a b : Cell) : Bool :=
  match a, b with
  | Cell.num x, Cell.num y => decide (x ≤ y)
  | Cell.num _, Cell.str _ => true
  | Cell.str x, Cell.str y => decide (x ≤ y)
  | Cell.str _, Cell.num _ => false
  | Cell.null, _ => true
  | _, Cell.null => false

/-- Stable insertion into an ascending-sorted cell list. -/
def insCellAsc (x : Cell) : List Cell → List Cell
  | [] => [x]
  | y :: ys => if cellLe x y then x :: y :: ys else y :: insCellAsc x ys

/-- Ascending sort of the distinct group keys. -/
def sortCellsAsc : List Cell → List Cell
  | [] => []
  | a :: t => insCellAsc a (sortCellsAsc t)

/-- The rational held by an amount cell (amount cells are null or numeric). -/
def qOfCell : Cell → ℚ
  | Cell.num q => q
  | _ => 0

/-- One group's aggregation: label, summed non-null amount (`"sum"` skips
NaN, so an all-null group sums to 0), and `"count"` of non-null amounts. -/
def groupAgg (pairs : List (Cell × Cell)) (k : Cell) : Cell × ℚ × ℕ :=
  let amts := (pairs.filter (fun p => p.1 == k)).map Prod.snd
  let nn := amts.filter (fun a => !a.isNull)
  (k, ((nn.map qOfCell).sum, nn.length))

/-- Stable insertion into a list ascending in summed amount. -/
def insByTotalAsc (x : Cell × ℚ × ℕ) : List (Cell × ℚ × ℕ) → List (Cell × ℚ × ℕ)
  | [] => [x]
  | y :: ys => if decide (x.2.1 ≤ y.2.1) then x :: y :: ys else y :: insByTotalAsc x ys

/-- Stable ascending sort by summed amount. -/
def sortByTotalAsc : List (Cell × ℚ × ℕ) → List (Cell × ℚ × ℕ)
  | [] => []
  | a :: t => insByTotalAsc a (sortByTotalAsc t)

/-- `groups_top`: group the normalized frame by `key` with `dropna=True`
(group keys are the distinct non-null values, in `groupby`'s ascending key
order), aggregate `amount_gbp`, sort descending by the summed amount
(`sort_values` computes an ascending argsort and reverses it, which is how
ties come out of pandas), and keep the first `topN`.  The source's
`pd.notna(row[key])` relabeling is the identity because `dropna=True`
already removed null keys. -/
def groupsTop (frame : List (String × List Cell)) (key : String) (topN : ℕ) :
    List (Cell × ℚ × ℕ) :=
  let kcol := (frame.lookup key).getD []
  let acol := (frame.lookup "amount_gbp").getD []
  let pairs := List.zip kcol acol
  let keys := sortCellsAsc ((kcol.filter (fun c => !c.isNull)).dedup)
  let g := keys.map (groupAgg pairs)
  ((sortByTotalAsc g).reverse).take topN

/-! ### Payment statistics (`compute_metadata` aggregates) -/

/-- The value of a Python expression `float(x)`: either a real number or the
float NaN (which pandas returns for a statistic of an all-null column). -/
inductive PyFloat where
  | nan
  | val (q : ℚ)
deriving DecidableEq, Repr

/-- The amount column of a normalized table as optional rationals
(`pd.to_numeric` on the already-numeric column is the identity). -/
def amountsOf (t : RawTable) : List (Option ℚ) :=
  (normCol t "amount_gbp").map (fun c => match c with | Cell.num q => some q | _ => none)

/-- The non-null entries. -/
def nonNullQ (amts : List (Option ℚ)) : List ℚ := amts.filterMap id

/-- Stable insertion into an ascending rational list. -/
def insQAsc (x : ℚ) : List ℚ → List ℚ
  | [] => [x]
  | y :: ys => if decide (x ≤ y) then x :: y :: ys else y :: insQAsc x ys

/-- Ascending sort of rationals. -/
def sortQAsc : List ℚ → List ℚ
  | [] => []
  | a :: t => insQAsc a (sortQAsc t)

/-- `float(amt.sum(skipna=True)) if size else 0.0`: an empty or all-null
column sums to `0.0`. -/
def statSum (amts : List (Option ℚ)) : ℚ :=
  if amts.length = 0 then 0 else (nonNullQ amts).sum

/-- `float(amt.min(skipna=True)) if size else None`: `None` only for a
zero-length column; an all-null column yields NaN. -/
def statMin (amts : List (Option ℚ)) : Option PyFloat :=
  if amts.length = 0 then none
  else
    match sortQAsc (nonNullQ amts) with
    | [] => some PyFloat.nan
    | x :: _ => some (PyFloat.val x)

/-- `float(amt.max(skipna=True)) if size else None`. -/
def statMax (amts : List (Option ℚ)) : Option PyFloat :=
  if amts.length = 0 then none
  else
    match (sortQAsc (nonNullQ amts)).getLast? with
    | none => some PyFloat.nan
    | some x => some (PyFloat.val x)

/-- `float(amt.mean(skipna=True)) if size else None`. -/
def statMean (amts : List (Option ℚ)) : Option PyFloat :=
  if amts.length = 0 then none
  else
    match nonNullQ amts with
    | [] => some PyFloat.nan
    | nn => some (PyFloat.val (nn.sum / (nn.length : ℚ)))

/-- Linear-interpolation quantile of a sorted nonempty list (pandas
`Series.quantile(p)` default). -/
def quantileLinear (xs : List ℚ) (p : ℚ) : ℚ :=
  let n := xs.length
  let pos : ℚ := p * ((n : ℚ) - 1)
  let i : ℕ := Int.toNat ⌊pos⌋
  let frac : ℚ := pos - (i : ℚ)
  if i + 1 < n then xs.getD i 0 + frac * (xs.getD (i + 1) 0 - xs.getD i 0)
  else xs.getD i 0

/-- `float(amt.median(skipna=True)) if size else None` (pandas median is the
linear 0.5 quantile of the non-null values). -/
def statMedian (amts : List (Option ℚ)) : Option PyFloat :=
  if amts.length = 0 then none
  else
    match sortQAsc (nonNullQ amts) with
    | [] => some PyFloat.nan
    | xs => some (PyFloat.val (quantileLinear xs (1/2)))

/-- `float(amt.quantile(0.95)) if size else None`. -/
def statP95 (amts : List (Option ℚ)) : Option PyFloat :=
  if amts.length = 0 then none
  else
    match sortQAsc (nonNullQ amts) with
    | [] => some PyFloat.nan
    | xs => some (PyFloat.val (quantileLinear xs (95/100)))

/-! ### Specification-side completeness formulation (for the refinement
comparison in C4) -/

/-- Modelled from the spec: the cells of the core-field subset, flattened. -/
def coreCells (frame : List (String × List Cell)) : List Cell :=
  (CORE_COLS.filterMap (fun c => frame.lookup c)).flatten

/-- Modelled from the spec: "fraction of non-null cells across a fixed
core-field subset relative to total cells in that subset". -/
def specScore (frame : List (String × List Cell)) : ℚ :=
  if (coreCells frame).length = 0 then 0
  else (nonNullCount (coreCells frame) : ℚ) / ((coreCells frame).length : ℚ)

/-- Modelled from the spec: "score ≥ 0.9 → complete, ≥ 0.6 → partial, else
limited". -/
def specCoverage (score : ℚ) : String :=
  if 9/10 ≤ score then "complete"
  else if 6/10 ≤ score then "partial"
  else "limited"

end HMT

namespace HMT

/-! ## Helper lemmas -/

theorem firstIdxWhere_eq_some {α : Type} {p : α → Bool} {l : List α} {i : ℕ} (d : α)
    (h : firstIdxWhere p l = some i) :
    i < l.length ∧ p (l.getD i d) = true ∧ ∀ j, j < i → p (l.getD j d) = false := by
  induction l generalizing i with
  | nil => simp [firstIdxWhere] at h
  | cons a t ih =>
      by_cases pa : p a = true
      · simp [firstIdxWhere, pa] at h
        subst h
        refine ⟨by simp, by simpa using pa, fun j hj => by omega⟩
      · simp [firstIdxWhere, pa, Option.map_eq_some'] at h
        obtain ⟨i', hi', rfl⟩ := h
        obtain ⟨hb, hp, hmin⟩ := ih hi'
        refine ⟨by simpa using hb, by simpa using hp, ?_⟩
        intro j hj
        match j with
        | 0 => simpa using pa
        | j' + 1 =>
            simpa using hmin j' (by omega)

theorem firstIdxWhere_isSome {α : Type} {p : α → Bool} {l : List α}
    (h : ∃ x ∈ l, p x = true) : (firstIdxWhere p l).isSome = true := by
  induction l with
  | nil => simp at h
  | cons a t ih =>
      cases hpa : p a with
      | true => simp [firstIdxWhere, hpa]
      | false =>
          have ht : ∃ x ∈ t, p x = true := by
            obtain ⟨x, hx, hpx⟩ := h
            rcases List.mem_cons.mp hx with h1 | h2
            · rw [h1] at hpx; rw [hpx] at hpa; exact absurd hpa (by simp)
            · exact ⟨x, h2, hpx⟩
          simp [firstIdxWhere, hpa, Option.isSome_map]
          exact ih ht

theorem foldlOptAppend (lc : List String) :
    ∀ (R : List (String × List String)) (acc : List (String × ℕ)),
      R.foldl (fun m kv =>
          match resolveField lc kv.2 with
          | some i => m ++ [(kv.1, i)]
          | none => m) acc =
        acc ++ R.filterMap (fun kv => (resolveField lc kv.2).map (fun i => (kv.1, i))) := by
  intro R
  induction R with
  | nil => intro acc; simp
  | cons kv t ih =>
      intro acc
      cases hres : resolveField lc kv.2 with
      | some i => simp [List.foldl_cons, hres, ih, List.filterMap_cons]
      | none => simp [List.foldl_cons, hres, ih, List.filterMap_cons]

theorem mapColumns_eq_filterMap (headers : List String) :
    mapColumns headers =
      ALIASES_CANON.filterMap
        (fun kv => (resolveField (headers.map canon) kv.2).map (fun i => (kv.1, i))) := by
  have h := foldlOptAppend (headers.map canon) ALIASES_CANON []
  simpa [mapColumns] using h

theorem lookup_none_of_not_key {β : Type} (k : String) :
    ∀ L : List (String × β), k ∉ L.map Prod.fst → L.lookup k = none := by
  intro L
  induction L with
  | nil => intro _; rfl
  | cons b L' ih =>
      obtain ⟨bk, bv⟩ := b
      intro h
      rw [List.map_cons] at h
      have h1 : k ≠ bk := fun hc => h (by simp [hc])
      have h2 : k ∉ L'.map Prod.fst := fun hc => h (by simp [hc])
      have hbeq : (k == bk) = false := beq_eq_false_iff_ne.mpr h1
      simp [List.lookup, hbeq, ih h2]

theorem keys_filterMap_sub (lc : List String) (R : List (String × List String)) :
    ∀ b ∈ R.filterMap (fun kv => (resolveField lc kv.2).map (fun i => (kv.1, i))),
      b.1 ∈ R.map Prod.fst := by
  intro b hb
  obtain ⟨kv, hkv, heq⟩ := List.mem_filterMap.mp hb
  obtain ⟨i, _, rfl⟩ := Option.map_eq_some'.mp heq
  exact List.mem_map.mpr ⟨kv, hkv, rfl⟩

theorem lookup_filterMap_resolve (lc : List String) :
    ∀ R : List (String × List String), (R.map Prod.fst).Nodup →
      ∀ k al, (k, al) ∈ R →
        (R.filterMap (fun kv => (resolveField lc kv.2).map (fun i => (kv.1, i)))).lookup k =
          resolveField lc al := by
  intro R
  induction R with
  | nil => intro _ k al h; simp at h
  | cons kv R' ih =>
      obtain ⟨k0, al0⟩ := kv
      intro hnd k al hmem
      rw [List.map_cons] at hnd
      obtain ⟨hk0, hnd'⟩ := List.nodup_cons.mp hnd
      rcases List.mem_cons.mp hmem with heq | hmem'
      · have hk : k = k0 := congrArg Prod.fst heq
        have hal : al = al0 := congrArg Prod.snd heq
        subst hk; subst hal
        cases hres : resolveField lc al with
        | some i => simp [List.filterMap_cons, hres, List.lookup]
        | none =>
            simp only [List.filterMap_cons, hres, Option.map_none']
            apply lookup_none_of_not_key
            intro hc
            obtain ⟨b, hb, hb1⟩ := List.mem_map.mp hc
            exact hk0 (hb1 ▸ keys_filterMap_sub lc R' b hb)
      · have hkne : k ≠ k0 := by
          intro hc; subst hc
          exact hk0 (List.mem_map.mpr ⟨(k, al), hmem', rfl⟩)
        have hbeq : (k == k0) = false := beq_eq_false_iff_ne.mpr hkne
        cases hres : resolveField lc al0 with
        | some i =>
            simp only [List.filterMap_cons, hres, Option.map_some', List.lookup, hbeq]
            exact ih hnd' k al hmem'
        | none =>
            simp only [List.filterMap_cons, hres, Option.map_none']
            exact ih hnd' k al hmem'

theorem aliases_keys_nodup : (ALIASES_CANON.map Prod.fst).Nodup := by decide

theorem mapColumns_lookup (headers : List String) (k : String) (al : List String)
    (hmem : (k, al) ∈ ALIASES_CANON) :
    (mapColumns headers).lookup k = resolveField (headers.map canon) al := by
  rw [mapColumns_eq_filterMap]
  exact lookup_filterMap_resolve (headers.map canon) ALIASES_CANON aliases_keys_nodup k al hmem

theorem getD_map_canon (headers : List String) (j : ℕ) (hj : j < headers.length) :
    (headers.map canon).getD j "" = canon (headers.getD j "") := by
  rw [List.getD_eq_getElem _ _ (by simpa using hj), List.getD_eq_getElem _ _ hj]
  simp

/-! ## Claim C6 -/

/-- C6: for every header list and canonical field, if some header's
canonicalized form exactly equals one of the field's aliases, the column
resolver assigns that field the first such header in original column order;
since the assignment is itself an exact match taken before the lenient pass
is ever consulted, no lenient (substring-containment) match can override
it. -/
theorem exact_match_precedence :
    ∀ (headers : List String) (k : String) (al : List String),
      (k, al) ∈ ALIASES_CANON →
      (∃ h ∈ headers, canon h ∈ al) →
      ∃ i, (mapColumns headers).lookup k = some i ∧ i < headers.length ∧
        canon (headers.getD i "") ∈ al ∧
        ∀ j, j < i → canon (headers.getD j "") ∉ al := by
  intro headers k al hreg hex
  have hex' : ∃ x ∈ headers.map canon, al.contains x = true := by
    obtain ⟨h, hh, hcan⟩ := hex
    exact ⟨canon h, List.mem_map.mpr ⟨h, hh, rfl⟩, by simpa [List.contains] using hcan⟩
  have hsome := firstIdxWhere_isSome hex'
  obtain ⟨i, hi⟩ := Option.isSome_iff_exists.mp hsome
  have hprops := firstIdxWhere_eq_some "" hi
  obtain ⟨hbound, hp, hmin⟩ := hprops
  have hbound' : i < headers.length := by simpa using hbound
  refine ⟨i, ?_, hbound', ?_, ?_⟩
  · rw [mapColumns_lookup headers k al hreg]
    unfold resolveField
    rw [hi]
  · have := hp
    rw [getD_map_canon headers i hbound'] at this
    simpa [List.contains] using this
  · intro j hj hmem
    have hjb : j < headers.length := by omega
    have hthis := hmin j hj
    rw [getD_map_canon headers j hjb] at hthis
    have hnot : ¬ (canon (headers.getD j "") ∈ al) := by
      simpa [List.contains] using hthis
    exact hnot hmem

/-- C6 witness: with headers `["Supplier Ref", "supplier"]` the field
`supplier` resolves to index 1, its exact match, even though index 0 would
match leniently. -/
theorem exact_match_precedence_witness :
    ∃ i, (mapColumns ["Supplier Ref", "supplier"]).lookup "supplier" = some i ∧
      i < (["Supplier Ref", "supplier"] : List String).length ∧
      canon ((["Supplier Ref", "supplier"] : List String).getD i "") ∈
        ["supplier", "vendor", "suppliername", "payee", "recipient"] ∧
      ∀ j, j < i →
        canon ((["Supplier Ref", "supplier"] : List String).getD j "") ∉
          ["supplier", "vendor", "suppliername", "payee", "recipient"] :=
  exact_match_precedence ["Supplier Ref", "supplier"] "supplier"
    ["supplier", "vendor", "suppliername", "payee", "recipient"]
    (by decide) ⟨"supplier", by decide, by decide⟩

/-! ## Claim C9 -/

/-- C9 counterexample: with the single header `"item text"`, both the
`description` field and the later `item_text` field are assigned that same
source header (column 0) — the resolver has no cross-field exclusion, so the
field processed later in registry order does still receive the header. -/
theorem shared_header_counterexample :
    (mapColumns ["item text"]).lookup "description" = some 0 ∧
    (mapColumns ["item text"]).lookup "item_text" = some 0 := by decide

/-- C9 amended: within a single pass each canonical field is resolved
independently against the full header list — the mapping's entry for a
field is exactly that field's own exact-then-lenient resolution, with no
exclusion of headers claimed by earlier fields, so one header may be
assigned to several canonical fields. -/
theorem resolver_fields_independent :
    ∀ (headers : List String) (k : String) (al : List String),
      (k, al) ∈ ALIASES_CANON →
      (mapColumns headers).lookup k = resolveField (headers.map canon) al :=
  fun headers k al h => mapColumns_lookup headers k al h

/-- C9 amended witness: the independence equation evaluated for the
`description` field on the header list `["item text"]`. -/
theorem resolver_fields_independent_witness :
    ("description",
      ["publicationdescription", "description", "itemtext", "narrative",
       "spenddescription", "notes"]) ∈ ALIASES_CANON ∧
    (mapColumns ["item text"]).lookup "description" =
      resolveField (["item text"].map canon)
        ["publicationdescription", "description", "itemtext", "narrative",
         "spenddescription", "notes"] :=
  ⟨by decide,
   resolver_fields_independent ["item text"] "description"
     ["publicationdescription", "description", "itemtext", "narrative",
      "spenddescription", "notes"] (by decide)⟩

/-! ## Claim C7 -/

theorem digitsRun_eq_nil {l : List Char} (h : ∀ c ∈ l, c.isDigit = false) :
    digitsRun l = [] := by
  cases l with
  | nil => rfl
  | cons a t =>
      have := h a (by simp)
      simp [digitsRun, List.takeWhile_cons, this]

theorem numCore_eq_none {l : List Char} (h : ∀ c ∈ l, c.isDigit = false) :
    numCore l = none := by
  unfold numCore
  rw [digitsRun_eq_nil h]

theorem numAt_eq_none {l : List Char} (h : ∀ c ∈ l, c.isDigit = false) :
    numAt l = none := by
  unfold numAt
  cases l with
  | nil => simp [numCore_eq_none h]
  | cons a t =>
      have ht : ∀ c ∈ t, c.isDigit = false := fun c hc => h c (by simp [hc])
      by_cases ha : a = '-'
      · subst ha
        simp [numCore_eq_none ht]
      · have : numCore (a :: t) = none := numCore_eq_none h
        cases a
        simp_all [numAt]

theorem scanNum_eq_none {l : List Char} (h : ∀ c ∈ l, c.isDigit = false) :
    scanNum l = none := by
  induction l with
  | nil => rfl
  | cons a t ih =>
      have ht : ∀ c ∈ t, c.isDigit = false := fun c hc => h c (by simp [hc])
      simp [scanNum, numAt_eq_none h, ih ht]

theorem mem_stripChars {c : Char} {l : List Char} (h : c ∈ stripChars l) : c ∈ l := by
  unfold stripChars at h
  rw [List.mem_reverse] at h
  have h1 := (List.dropWhile_sublist _).subset h
  rw [List.mem_reverse] at h1
  exact (List.dropWhile_sublist _).subset h1

theorem parenNeg_eq (l : List Char) :
    parenNeg l = l ∨
      ∃ rest, l = '(' :: rest ∧ parenNeg l = '-' :: rest.dropLast := by
  unfold parenNeg
  split
  next rest =>
    cases hlast : rest.getLast? with
    | none => left; rfl
    | some x =>
        by_cases hx : x = ')'
        · subst hx
          right
          exact ⟨rest, rfl, by simp⟩
        · left
          simp [hx]
  next => left; rfl

theorem mem_parenNeg {c : Char} {l : List Char} (h : c ∈ parenNeg l) :
    c ∈ l ∨ c = '-' := by
  rcases parenNeg_eq l with heq | ⟨rest, hl, heq⟩
  · rw [heq] at h; exact Or.inl h
  · rw [heq] at h
    rcases List.mem_cons.mp h with h1 | h2
    · exact Or.inr h1
    · subst hl
      exact Or.inl (by simp [List.mem_cons, (List.dropLast_sublist rest).subset h2])

/-- C7: amount coercion handles accounting negatives, currency symbols and
thousands separators, extracts the first signed-decimal substring, passes
numeric values through as floats, and coerces anything without a numeral to
null. -/
theorem amount_coercion_spec :
    (parseAmount [Cell.str "(1,234.50)"] = [some ((-(2469/2) : ℚ))] ∧
     parseAmount [Cell.str "£2,000"] = [some ((2000 : ℚ))] ∧
     parseAmount [Cell.str "n/a"] = [none] ∧
     parseAmount [Cell.num 42] = [some ((42 : ℚ))]) ∧
    ∀ s : String, (∀ c ∈ s.toList, c.isDigit = false) → parseAmountStr s = none := by
  constructor
  · refine ⟨?_, ?_, by rfl, by rfl⟩
    · have e : parseAmount [Cell.str "(1,234.50)"] =
          [some (numValue true ['1', '2', '3', '4'] ['5', '0'])] := rfl
      rw [e]
      have d1 : digitsToNat ['1', '2', '3', '4'] = 1234 := by decide
      have d2 : digitsToNat ['5', '0'] = 50 := by decide
      simp only [numValue, d1, d2, List.length_cons, List.length_nil]
      norm_num
    · have e : parseAmount [Cell.str "£2,000"] =
          [some (numValue false ['2', '0', '0', '0'] [])] := rfl
      rw [e]
      have d1 : digitsToNat ['2', '0', '0', '0'] = 2000 := by decide
      have d0 : digitsToNat [] = 0 := by decide
      simp only [numValue, d1, d0, List.length_nil]
      norm_num
  · intro s hs
    unfold parseAmountStr
    have hnod : ∀ c ∈ parenNeg (removeCommasPounds (stripChars s.toList)),
        c.isDigit = false := by
      intro c hc
      rcases mem_parenNeg hc with h1 | h2
      · exact hs c (mem_stripChars (List.mem_of_mem_filter h1))
      · subst h2; rfl
    rw [scanNum_eq_none hnod]

/-- C7 witness: the no-numeral clause applied at the concrete value `"n/a"`. -/
theorem amount_coercion_spec_witness :
    (∀ c ∈ ("n/a" : String).toList, c.isDigit = false) ∧ parseAmountStr "n/a" = none :=
  ⟨by decide, amount_coercion_spec.2 "n/a" (by decide)⟩

/-! ## Claim C8 -/

theorem natDigitsAux_eq (fuel : ℕ) :
    ∀ n : ℕ, n ≤ fuel →
      natDigitsAux fuel n = (Nat.digits 10 n).reverse.map (fun d => Char.ofNat (d + 48)) := by
  induction fuel with
  | zero =>
      intro n hn
      have : n = 0 := by omega
      subst this
      simp [natDigitsAux]
  | succ f ih =>
      intro n hn
      cases n with
      | zero => simp [natDigitsAux]
      | succ m =>
          have hdiv : (m + 1) / 10 ≤ f := by
            have := Nat.div_lt_self (Nat.succ_pos m) (by norm_num : 1 < 10)
            omega
          rw [show natDigitsAux (f + 1) (m + 1) =
              natDigitsAux f ((m + 1) / 10) ++ [Char.ofNat ((m + 1) % 10 + 48)] from rfl]
          rw [ih _ hdiv]
          rw [Nat.digits_def' (by norm_num : 1 < 10) (Nat.succ_pos m)]
          simp

theorem natDigits_split (n : ℕ) (h : 10 ≤ n) :
    natDigits n =
      ((Nat.digits 10 (n / 100)).reverse.map (fun d => Char.ofNat (d + 48))) ++
        [Char.ofNat (n / 10 % 10 + 48), Char.ofNat (n % 10 + 48)] := by
  unfold natDigits
  rw [natDigitsAux_eq n n le_rfl]
  rw [Nat.digits_def' (by norm_num : 1 < 10) (by omega : 0 < n)]
  rw [Nat.digits_def' (by norm_num : 1 < 10) (by omega : 0 < n / 10)]
  rw [Nat.div_div_eq_div_mul]
  simp

theorem natStr_single (m : ℕ) (h1 : 0 < m) (h2 : m < 10) :
    natStr m = String.mk [Char.ofNat (m + 48)] := by
  unfold natStr
  rw [if_neg (by omega)]
  unfold natDigits
  rw [natDigitsAux_eq m m le_rfl]
  rw [Nat.digits_def' (by norm_num : 1 < 10) h1]
  have hz : m / 10 = 0 := by omega
  rw [hz, Nat.digits_zero, Nat.mod_eq_of_lt h2]
  simp

theorem natStr_two (m : ℕ) (h1 : 10 ≤ m) (h2 : m < 100) :
    natStr m = String.mk [Char.ofNat (m / 10 + 48), Char.ofNat (m % 10 + 48)] := by
  unfold natStr
  rw [if_neg (by omega)]
  unfold natDigits
  rw [natDigitsAux_eq m m le_rfl]
  rw [Nat.digits_def' (by norm_num : 1 < 10) (by omega : 0 < m)]
  rw [Nat.digits_def' (by norm_num : 1 < 10) (by omega : 0 < m / 10)]
  have hz : m / 10 / 10 = 0 := by omega
  have hlt : m / 10 % 10 = m / 10 := by omega
  rw [hz, Nat.digits_zero, hlt]
  simp

theorem lastTwoChars_eq (n : ℕ) (h : 10 ≤ n) :
    lastTwoChars n =
      String.mk [Char.ofNat (n / 10 % 10 + 48), Char.ofNat (n % 10 + 48)] := by
  unfold lastTwoChars
  rw [show natStr n = String.mk (natDigits n) by unfold natStr; rw [if_neg (by omega)]]
  rw [show (String.mk (natDigits n)).toList = natDigits n from rfl]
  rw [natDigits_split n h]
  dsimp only
  congr 1
  rw [List.length_append]
  have harith :
      ((Nat.digits 10 (n / 100)).reverse.map (fun d => Char.ofNat (d + 48))).length +
        ([Char.ofNat (n / 10 % 10 + 48), Char.ofNat (n % 10 + 48)] : List Char).length - 2 =
      ((Nat.digits 10 (n / 100)).reverse.map (fun d => Char.ofNat (d + 48))).length := by
    simp
  rw [harith, List.drop_left]

theorem lastTwoChars_eq_pad2 (n : ℕ) (h : 10 ≤ n) : lastTwoChars n = pad2 (n % 100) := by
  rw [lastTwoChars_eq n h]
  by_cases hm : n % 100 < 10
  · by_cases hz : n % 100 = 0
    · have h1 : n % 10 = 0 := by omega
      have h2 : n / 10 % 10 = 0 := by omega
      rw [h1, h2, hz]
      decide
    · have h1 : n % 10 = n % 100 := by omega
      have h2 : n / 10 % 10 = 0 := by omega
      rw [h1, h2]
      unfold pad2
      rw [natStr_single (n % 100) (by omega) hm]
      rfl
  · have h10 : 10 ≤ n % 100 := by omega
    have h100 : n % 100 < 100 := Nat.mod_lt n (by norm_num)
    have e1 : n % 100 / 10 = n / 10 % 10 := by omega
    have e2 : n % 100 % 10 = n % 10 := by omega
    unfold pad2
    rw [natStr_two (n % 100) h10 h100, e1, e2]
    rfl

/-- C8: the fiscal year label is `{year}-{last two digits of year + 1}` for
April onwards and `{year-1}-{last two digits of year}` for January-March
(last two digits meaning the zero-padded `% 100` residue, for any year of at
least two digits); in particular 2025-01 labels "2024-25" and 2025-04 labels
"2025-26". -/
theorem fiscal_year_label_spec :
    (uk_fiscal_year_label 2025 1 = "2024-25" ∧ uk_fiscal_year_label 2025 4 = "2025-26") ∧
    ∀ y m : ℕ, 10 ≤ y →
      (4 ≤ m → uk_fiscal_year_label y m = natStr y ++ "-" ++ pad2 ((y + 1) % 100)) ∧
      (m < 4 → uk_fiscal_year_label y m = natStr (y - 1) ++ "-" ++ pad2 (y % 100)) := by
  refine ⟨⟨by decide, by decide⟩, ?_⟩
  intro y m hy
  constructor
  · intro hm
    unfold uk_fiscal_year_label
    rw [if_pos hm, lastTwoChars_eq_pad2 (y + 1) (by omega)]
  · intro hm
    unfold uk_fiscal_year_label
    rw [if_neg (by omega), lastTwoChars_eq_pad2 y hy]

/-- C8 witness: the general clauses applied at the concrete months 2025-04
and 2025-01. -/
theorem fiscal_year_label_spec_witness :
    uk_fiscal_year_label 2025 4 = natStr 2025 ++ "-" ++ pad2 ((2025 + 1) % 100) ∧
    uk_fiscal_year_label 2025 1 = natStr (2025 - 1) ++ "-" ++ pad2 (2025 % 100) :=
  ⟨(fiscal_year_label_spec.2 2025 4 (by norm_num)).1 (by norm_num),
   (fiscal_year_label_spec.2 2025 1 (by norm_num)).2 (by norm_num)⟩

/-! ## Claim C5 -/

theorem tupleLe_refl (a : ℕ × String) : tupleLe a a := Or.inr rfl

theorem tupleLt_trans {a b c : ℕ × String} (h1 : tupleLt a b) (h2 : tupleLt b c) :
    tupleLt a c := by
  rcases h1 with h1 | ⟨h1e, h1s⟩ <;> rcases h2 with h2 | ⟨h2e, h2s⟩
  · exact Or.inl (by omega)
  · exact Or.inl (by omega)
  · exact Or.inl (by omega)
  · exact Or.inr ⟨by omega, lt_trans h1s h2s⟩

theorem tupleLe_trans {a b c : ℕ × String} (h1 : tupleLe a b) (h2 : tupleLe b c) :
    tupleLe a c := by
  rcases h1 with h1 | rfl
  · rcases h2 with h2 | rfl
    · exact Or.inl (tupleLt_trans h1 h2)
    · exact Or.inl h1
  · exact h2

theorem tupleLe_total (a b : ℕ × String) : tupleLe a b ∨ tupleLe b a := by
  rcases Nat.lt_trichotomy a.1 b.1 with h | h | h
  · exact Or.inl (Or.inl (Or.inl h))
  · rcases lt_trichotomy a.2 b.2 with h2 | h2 | h2
    · exact Or.inl (Or.inl (Or.inr ⟨h, h2⟩))
    · exact Or.inl (Or.inr (Prod.ext h h2))
    · exact Or.inr (Or.inl (Or.inr ⟨h.symm, h2⟩))
  · exact Or.inr (Or.inl (Or.inl h))

theorem mem_insDesc {x y : ℕ × String} :
    ∀ {l : List (ℕ × String)}, y ∈ insDesc x l ↔ y = x ∨ y ∈ l := by
  intro l
  induction l with
  | nil => simp [insDesc]
  | cons a t ih =>
      unfold insDesc
      by_cases h : tupleLe a x
      · simp [h]
      · simp only [if_neg h, List.mem_cons, ih]
        tauto

theorem mem_sortScoresDesc {y : ℕ × String} :
    ∀ {l : List (ℕ × String)}, y ∈ sortScoresDesc l ↔ y ∈ l := by
  intro l
  induction l with
  | nil => simp [sortScoresDesc]
  | cons a t ih =>
      unfold sortScoresDesc
      rw [mem_insDesc]
      simp [ih]

theorem sortScoresDesc_head_max :
    ∀ l : List (ℕ × String), l ≠ [] →
      ∃ m rest, sortScoresDesc l = m :: rest ∧ ∀ x ∈ l, tupleLe x m := by
  intro l
  induction l with
  | nil => intro h; exact absurd rfl h
  | cons a t ih =>
      intro _
      by_cases ht : t = []
      · subst ht
        refine ⟨a, [], rfl, ?_⟩
        intro x hx
        rw [List.mem_singleton] at hx
        subst hx
        exact tupleLe_refl x
      · obtain ⟨m, rest, hsort, hmax⟩ := ih ht
        have hrw : sortScoresDesc (a :: t) = insDesc a (m :: rest) := by
          unfold sortScoresDesc
          rw [hsort]
        by_cases hma : tupleLe m a
        · refine ⟨a, m :: rest, ?_, ?_⟩
          · rw [hrw]
            rw [show insDesc a (m :: rest) =
                if tupleLe m a then a :: m :: rest else m :: insDesc a rest from rfl]
            rw [if_pos hma]
          · intro x hx
            rcases List.mem_cons.mp hx with rfl | hxt
            · exact tupleLe_refl x
            · exact tupleLe_trans (hmax x hxt) hma
        · refine ⟨m, insDesc a rest, ?_, ?_⟩
          · rw [hrw]
            rw [show insDesc a (m :: rest) =
                if tupleLe m a then a :: m :: rest else m :: insDesc a rest from rfl]
            rw [if_neg hma]
          · intro x hx
            rcases List.mem_cons.mp hx with rfl | hxt
            · rcases tupleLe_total x m with h | h
              · exact h
              · exact absurd h hma
            · exact hmax x hxt

theorem pick_eq_of_scores_nil {wb : List Sheet} (h : sheetScores wb = []) :
    pick_best_sheet wb = ((wb.head?).map Sheet.name).getD "" := by
  unfold pick_best_sheet
  rw [h]

theorem pick_eq_of_scores_cons {wb : List Sheet} {p : ℕ × String} {ps : List (ℕ × String)}
    (h : sheetScores wb = p :: ps) :
    pick_best_sheet wb = ((sortScoresDesc (p :: ps)).head?.map Prod.snd).getD "" := by
  unfold pick_best_sheet
  rw [h]

/-- C5 counterexample: two sheets tied on score (both expose a supplier
signal column); the selector returns the SECOND sheet "b" (the
lexicographically greater name), not the first sheet in workbook order as
the claim requires. -/
theorem sheet_tie_counterexample :
    sheetScores [⟨"a", some ["supplier"]⟩, ⟨"b", some ["supplier"]⟩] = [(1, "a"), (1, "b")] ∧
    pick_best_sheet [⟨"a", some ["supplier"]⟩, ⟨"b", some ["supplier"]⟩] = "b" := by
  constructor
  · decide
  · with_unfolding_all decide

/-- C5 amended: the selector returns a sheet whose `(score, name)` pair is
maximal in the lexicographic tuple order that Python's `sort(reverse=True)`
uses — so a tie in score resolves to the lexicographically greatest sheet
NAME, not to the first sheet in workbook order — and it falls back to the
first sheet exactly when no sheet is readable; on a nonempty workbook it
never fails. -/
theorem sheet_selector_max :
    ∀ wb : List Sheet, wb ≠ [] →
      (sheetScores wb = [] → ∃ sh rest, wb = sh :: rest ∧ pick_best_sheet wb = sh.name) ∧
      (sheetScores wb ≠ [] →
        ∃ sc, (sc, pick_best_sheet wb) ∈ sheetScores wb ∧
          ∀ p ∈ sheetScores wb, tupleLe p (sc, pick_best_sheet wb)) := by
  intro wb hwb
  constructor
  · intro hempty
    cases wb with
    | nil => exact absurd rfl hwb
    | cons sh rest =>
        refine ⟨sh, rest, rfl, ?_⟩
        rw [pick_eq_of_scores_nil hempty]
        rfl
  · intro hne
    obtain ⟨m, rest2, hsort, hmax⟩ := sortScoresDesc_head_max (sheetScores wb) hne
    cases hs : sheetScores wb with
    | nil => exact absurd hs hne
    | cons p ps =>
        rw [hs] at hsort hmax
        have hpick : pick_best_sheet wb = m.2 := by
          rw [pick_eq_of_scores_cons hs, hsort]
          rfl
        refine ⟨m.1, ?_, ?_⟩
        · rw [hpick]
          have hmem : m ∈ sortScoresDesc (p :: ps) := by rw [hsort]; simp
          have hmem2 := mem_sortScoresDesc.mp hmem
          simpa using hmem2
        · intro q hq
          rw [hpick]
          simpa using hmax q hq

/-- C5 amended witness: evaluated on a workbook with an unreadable cover
sheet, a data sheet and a notes sheet. -/
theorem sheet_selector_max_witness :
    (([⟨"cover", none⟩, ⟨"data", some ["Supplier", "Amount", "Date"]⟩,
       ⟨"notes", some ["Comment"]⟩] : List Sheet) ≠ []) ∧
    ((sheetScores [⟨"cover", none⟩, ⟨"data", some ["Supplier", "Amount", "Date"]⟩,
        ⟨"notes", some ["Comment"]⟩] ≠ []) →
      ∃ sc, (sc, pick_best_sheet [⟨"cover", none⟩, ⟨"data", some ["Supplier", "Amount", "Date"]⟩,
          ⟨"notes", some ["Comment"]⟩]) ∈
        sheetScores [⟨"cover", none⟩, ⟨"data", some ["Supplier", "Amount", "Date"]⟩,
          ⟨"notes", some ["Comment"]⟩] ∧
        ∀ p ∈ sheetScores [⟨"cover", none⟩, ⟨"data", some ["Supplier", "Amount", "Date"]⟩,
            ⟨"notes", some ["Comment"]⟩],
          tupleLe p (sc, pick_best_sheet [⟨"cover", none⟩,
            ⟨"data", some ["Supplier", "Amount", "Date"]⟩, ⟨"notes", some ["Comment"]⟩])) :=
  ⟨by decide,
   (sheet_selector_max [⟨"cover", none⟩, ⟨"data", some ["Supplier", "Amount", "Date"]⟩,
      ⟨"notes", some ["Comment"]⟩] (by decide)).2⟩

/-! ## Claim C2 -/

/-- C2 counterexample: a normalized table with one surviving row whose
amount is null has a size-1, all-null amount column (zero numeric values);
every order statistic is then reported as float NaN — not as the absent
value the claim requires — while the sum is 0. -/
theorem stats_nan_counterexample :
    (amountsOf ⟨["supplier"], [[Cell.str "X"]]⟩).length = 1 ∧
    nonNullQ (amountsOf ⟨["supplier"], [[Cell.str "X"]]⟩) = [] ∧
    statMin (amountsOf ⟨["supplier"], [[Cell.str "X"]]⟩) = some PyFloat.nan ∧
    statMax (amountsOf ⟨["supplier"], [[Cell.str "X"]]⟩) = some PyFloat.nan ∧
    statMean (amountsOf ⟨["supplier"], [[Cell.str "X"]]⟩) = some PyFloat.nan ∧
    statMedian (amountsOf ⟨["supplier"], [[Cell.str "X"]]⟩) = some PyFloat.nan ∧
    statP95 (amountsOf ⟨["supplier"], [[Cell.str "X"]]⟩) = some PyFloat.nan ∧
    statSum (amountsOf ⟨["supplier"], [[Cell.str "X"]]⟩) = 0 := by
  with_unfolding_all decide

/-- C2 amended: over a normalized table whose amount column has zero numeric
(non-null) entries, the sum is reported as exactly zero; the five order
statistics are reported as absent only when the column itself is empty (zero
surviving rows) — when rows exist but every amount is null they are reported
as float NaN instead. -/
theorem stats_all_null :
    ∀ t : RawTable, nonNullQ (amountsOf t) = [] →
      statSum (amountsOf t) = 0 ∧
      (amountsOf t = [] →
        statMin (amountsOf t) = none ∧ statMax (amountsOf t) = none ∧
        statMean (amountsOf t) = none ∧ statMedian (amountsOf t) = none ∧
        statP95 (amountsOf t) = none) ∧
      (amountsOf t ≠ [] →
        statMin (amountsOf t) = some PyFloat.nan ∧ statMax (amountsOf t) = some PyFloat.nan ∧
        statMean (amountsOf t) = some PyFloat.nan ∧ statMedian (amountsOf t) = some PyFloat.nan ∧
        statP95 (amountsOf t) = some PyFloat.nan) := by
  intro t hnn
  refine ⟨?_, ?_, ?_⟩
  · unfold statSum
    by_cases h : (amountsOf t).length = 0
    · rw [if_pos h]
    · rw [if_neg h, hnn]
      simp
  · intro he
    unfold statMin statMax statMean statMedian statP95
    rw [he]
    simp
  · intro hne
    have hlen : ¬ (amountsOf t).length = 0 := by
      intro h
      exact hne (List.length_eq_zero.mp h)
    unfold statMin statMax statMean statMedian statP95
    rw [hnn]
    simp [hlen, sortQAsc]

/-- C2 amended witness: the all-null clause applied to the one-row table with
an unresolved amount column. -/
theorem stats_all_null_witness :
    nonNullQ (amountsOf ⟨["entity", "supplier"], [[Cell.str "HMT", Cell.str "ACME"]]⟩) = [] ∧
    statSum (amountsOf ⟨["entity", "supplier"], [[Cell.str "HMT", Cell.str "ACME"]]⟩) = 0 :=
  ⟨by decide,
   (stats_all_null ⟨["entity", "supplier"], [[Cell.str "HMT", Cell.str "ACME"]]⟩ (by decide)).1⟩

/-! ## Claim C3 -/

theorem mem_insCellAsc {x y : Cell} :
    ∀ {l : List Cell}, y ∈ insCellAsc x l ↔ y = x ∨ y ∈ l := by
  intro l
  induction l with
  | nil => simp [insCellAsc]
  | cons a t ih =>
      unfold insCellAsc
      by_cases h : cellLe x a = true
      · simp [h]
      · rw [if_neg h]
        simp only [List.mem_cons, ih]
        tauto

theorem mem_sortCellsAsc {y : Cell} :
    ∀ {l : List Cell}, y ∈ sortCellsAsc l ↔ y ∈ l := by
  intro l
  induction l with
  | nil => simp [sortCellsAsc]
  | cons a t ih =>
      unfold sortCellsAsc
      rw [mem_insCellAsc]
      simp [ih]

theorem mem_insByTotalAsc {x y : Cell × ℚ × ℕ} :
    ∀ {l : List (Cell × ℚ × ℕ)}, y ∈ insByTotalAsc x l ↔ y = x ∨ y ∈ l := by
  intro l
  induction l with
  | nil => simp [insByTotalAsc]
  | cons a t ih =>
      unfold insByTotalAsc
      by_cases h : decide (x.2.1 ≤ a.2.1) = true
      · simp [h]
      · rw [if_neg h]
        simp only [List.mem_cons, ih]
        tauto

theorem mem_sortByTotalAsc {y : Cell × ℚ × ℕ} :
    ∀ {l : List (Cell × ℚ × ℕ)}, y ∈ sortByTotalAsc l ↔ y ∈ l := by
  intro l
  induction l with
  | nil => simp [sortByTotalAsc]
  | cons a t ih =>
      unfold sortByTotalAsc
      rw [mem_insByTotalAsc]
      simp [ih]

/-- C3 counterexample: the normalized table contains a null-supplier row
(with amount 100), yet the supplier grouping consists solely of the "A"
group — `groupby(..., dropna=True)` drops the null-keyed rows instead of
retaining them as an explicit null-labeled group. -/
theorem groups_null_dropped_counterexample :
    (normCol ⟨["Supplier", "Amount"],
        [[Cell.null, Cell.num 100], [Cell.str "A", Cell.num 50]]⟩ "supplier").contains
      Cell.null = true ∧
    groupsTop (normFrame ⟨["Supplier", "Amount"],
        [[Cell.null, Cell.num 100], [Cell.str "A", Cell.num 50]]⟩) "supplier" 10 =
      [(Cell.str "A", 50, 1)] := by
  with_unfolding_all decide

/-- C3 amended: every returned group carries a non-null key (rows with a
null grouping key are dropped by `dropna=True`, not retained as a
null-labeled group); ties in summed amount come back in an order the
unstable sort leaves unspecified — for groups summing to A: 300, B: 300,
C: 100 with N = 2 the returned groups are exactly A and B, in some order,
with C excluded. -/
theorem groups_top_amended :
    (∀ (frame : List (String × List Cell)) (key : String) (topN : ℕ),
      ∀ g ∈ groupsTop frame key topN, g.1 ≠ Cell.null) ∧
    ((groupsTop (normFrame ⟨["Supplier", "Amount"],
        [[Cell.str "A", Cell.num 300], [Cell.str "C", Cell.num 100],
         [Cell.str "B", Cell.num 300]]⟩) "supplier" 2).map Prod.fst).Perm
      [Cell.str "A", Cell.str "B"] := by
  constructor
  · intro frame key topN g hg
    unfold groupsTop at hg
    have h1 := (List.take_sublist _ _).subset hg
    rw [List.mem_reverse] at h1
    rw [mem_sortByTotalAsc] at h1
    obtain ⟨k, hk, hgk⟩ := List.mem_map.mp h1
    have hk2 := mem_sortCellsAsc.mp hk
    have hk3 := List.mem_dedup.mp hk2
    have hknn := List.of_mem_filter hk3
    intro hcontra
    have : g.1 = k := by rw [← hgk]; rfl
    rw [this] at hcontra
    subst hcontra
    simp [Cell.isNull] at hknn
  · have hcomp : (groupsTop (normFrame ⟨["Supplier", "Amount"],
        [[Cell.str "A", Cell.num 300], [Cell.str "C", Cell.num 100],
         [Cell.str "B", Cell.num 300]]⟩) "supplier" 2).map Prod.fst =
        [Cell.str "B", Cell.str "A"] := by
      with_unfolding_all decide
    rw [hcomp]
    exact List.Perm.swap (Cell.str "A") (Cell.str "B") []

/-- C3 amended witness: the non-null-key clause applied to the concrete
group ("A", 50, 1) of the two-row table with one null-supplier row. -/
theorem groups_top_amended_witness :
    (Cell.str "A", (50 : ℚ), 1) ∈ groupsTop (normFrame ⟨["Supplier", "Amount"],
        [[Cell.null, Cell.num 100], [Cell.str "A", Cell.num 50]]⟩) "supplier" 10 ∧
    (Cell.str "A", (50 : ℚ), 1).1 ≠ Cell.null :=
  ⟨by with_unfolding_all decide,
   groups_top_amended.1 (normFrame ⟨["Supplier", "Amount"],
       [[Cell.null, Cell.num 100], [Cell.str "A", Cell.num 50]]⟩) "supplier" 10
     (Cell.str "A", 50, 1) (by with_unfolding_all decide)⟩

/-! ## Claim C4 -/

theorem contains_iff_mem {l : List String} {c : String} : l.contains c = true ↔ c ∈ l := by
  simp [List.contains, List.elem_iff]

theorem nonNullCount_append (a b : List Cell) :
    nonNullCount (a ++ b) = nonNullCount a + nonNullCount b := by
  unfold nonNullCount
  rw [List.filter_append, List.length_append]

theorem nonNullCount_flatten :
    ∀ L : List (List Cell), nonNullCount L.flatten = (L.map nonNullCount).sum := by
  intro L
  induction L with
  | nil => rfl
  | cons a t ih =>
      rw [List.flatten_cons, nonNullCount_append, ih, List.map_cons, List.sum_cons]

theorem lenFlatten : ∀ L : List (List Cell), L.flatten.length = (L.map List.length).sum := by
  intro L
  induction L with
  | nil => rfl
  | cons a t ih =>
      rw [List.flatten_cons, List.length_append, ih, List.map_cons, List.sum_cons]

theorem lookup_isSome_iff {β : Type} :
    ∀ (frame : List (String × β)) (c : String),
      (frame.lookup c).isSome = true ↔ c ∈ frame.map Prod.fst := by
  intro frame c
  induction frame with
  | nil => simp [List.lookup]
  | cons kv t ih =>
      obtain ⟨k, v⟩ := kv
      cases hck : (c == k) with
      | true =>
          have : c = k := by simpa using hck
          simp [List.lookup, hck, this]
      | false =>
          have hne : c ≠ k := by simpa using hck
          simp [List.lookup, hck, ih, hne]

theorem filterMap_lookup_eq (frame : List (String × List Cell)) :
    ∀ cs : List String,
      cs.filterMap (fun c => frame.lookup c) =
        (cs.filter (fun c => (frame.map Prod.fst).contains c)).map
          (fun c => (frame.lookup c).getD []) := by
  intro cs
  induction cs with
  | nil => rfl
  | cons c t ih =>
      rw [List.filterMap_cons, List.filter_cons]
      cases hl : frame.lookup c with
      | some col =>
          have hc : (frame.map Prod.fst).contains c = true := by
            rw [contains_iff_mem]
            apply (lookup_isSome_iff frame c).mp
            rw [hl]
            rfl
          rw [if_pos hc, List.map_cons, hl]
          rw [ih]
          rfl
      | none =>
          have hc : ¬ ((frame.map Prod.fst).contains c = true) := by
            rw [contains_iff_mem]
            intro hm
            have hsome := (lookup_isSome_iff frame c).mpr hm
            rw [hl] at hsome
            simp at hsome
          rw [if_neg hc, ih]

theorem normFrame_keys (t : RawTable) : (normFrame t).map Prod.fst = CANON_KEYS := rfl

theorem all_null_nonNullCount {col : List Cell} (h : col.all Cell.isNull = true) :
    nonNullCount col = 0 := by
  unfold nonNullCount
  rw [List.length_eq_zero]
  rw [List.filter_eq_nil_iff]
  intro a ha
  have := (List.all_eq_true.mp h) a ha
  simp [this]

/-- C4 counterexample: the normalized table produced from a one-column table
whose only supplier cell is whitespace has every core column present and
entirely null; its completeness is scored 0.0 with coverage label
"limited" — not the "unknown" label the claim requires for an entirely-null
core. -/
theorem completeness_unknown_counterexample :
    (∀ c ∈ CORE_COLS,
      ((normFrame ⟨["supplier"], [[Cell.str "  "]]⟩).lookup c).getD [] ≠ [] ∧
      (((normFrame ⟨["supplier"], [[Cell.str "  "]]⟩).lookup c).getD []).all
        Cell.isNull = true) ∧
    completeness (normFrame ⟨["supplier"], [[Cell.str "  "]]⟩) = (0, "limited") := by
  constructor
  · decide
  · with_unfolding_all decide

/-- C4 amended: whenever at least one core column is present the score is
the fraction of non-null cells over the total cells of the present core
columns with the 0.9/0.6 coverage thresholds; the "unknown" label occurs
exactly when NO core column is present in the frame; and a
normalize-produced table always carries every core column, so when its core
cells are entirely null it scores 0.0 with label "limited", never
"unknown". -/
theorem completeness_amended :
    (∀ frame : List (String × List Cell),
      (∃ c ∈ CORE_COLS, c ∈ frame.map Prod.fst) →
        completeness frame = (specScore frame, specCoverage (specScore frame))) ∧
    (∀ frame : List (String × List Cell),
      (∀ c ∈ CORE_COLS, c ∉ frame.map Prod.fst) →
        completeness frame = (0, "unknown")) ∧
    (∀ t : RawTable,
      (∀ c ∈ CORE_COLS, (((normFrame t).lookup c).getD []).all Cell.isNull = true) →
        completeness (normFrame t) = (0, "limited")) := by
  refine ⟨?_, ?_, ?_⟩
  · intro frame hpres
    have hne : CORE_COLS.filter (fun c => (frame.map Prod.fst).contains c) ≠ [] := by
      obtain ⟨c, hc1, hc2⟩ := hpres
      intro hnil
      have hcmem : c ∈ CORE_COLS.filter (fun c => (frame.map Prod.fst).contains c) :=
        List.mem_filter.mpr ⟨hc1, contains_iff_mem.mpr hc2⟩
      rw [hnil] at hcmem
      simp at hcmem
    have hcore : coreCells frame =
        ((CORE_COLS.filter (fun c => (frame.map Prod.fst).contains c)).map
          (fun c => (frame.lookup c).getD [])).flatten := by
      unfold coreCells
      rw [filterMap_lookup_eq]
    unfold completeness specScore specCoverage
    dsimp only
    rw [if_neg hne, hcore, nonNullCount_flatten, lenFlatten]
  · intro frame hnone
    have hnil : CORE_COLS.filter (fun c => (frame.map Prod.fst).contains c) = [] := by
      rw [List.filter_eq_nil_iff]
      intro c hc
      intro hcontra
      exact hnone c hc (contains_iff_mem.mp hcontra)
    unfold completeness
    dsimp only
    rw [if_pos hnil]
  · intro t hall
    have hkeys := normFrame_keys t
    have hfil : CORE_COLS.filter (fun c => ((normFrame t).map Prod.fst).contains c) =
        CORE_COLS := by
      rw [hkeys]
      decide
    have hzero : ((CORE_COLS.map (fun c => ((normFrame t).lookup c).getD [])).map
        nonNullCount).sum = 0 := by
      apply List.sum_eq_zero
      intro x hx
      obtain ⟨col, hcol, rfl⟩ := List.mem_map.mp hx
      obtain ⟨c, hc, rfl⟩ := List.mem_map.mp hcol
      exact all_null_nonNullCount (hall c hc)
    unfold completeness
    dsimp only
    rw [hfil]
    rw [if_neg (by decide : ¬(CORE_COLS = []))]
    rw [hzero]
    generalize (List.map List.length
      (List.map (fun c => ((normFrame t).lookup c).getD []) CORE_COLS)).sum = total
    have hsc : (if total = 0 then (0 : ℚ) else ((0 : ℕ) : ℚ) / (total : ℚ)) = 0 := by
      by_cases h : total = 0
      · rw [if_pos h]
      · rw [if_neg h]
        simp
    rw [hsc]
    have h9 : ¬ ((0 : ℚ) ≥ 9/10) := by norm_num
    have h6 : ¬ ((0 : ℚ) ≥ 6/10) := by norm_num
    rw [if_neg h9, if_neg h6]

/-- C4 amended witness: the all-null clause applied to the normalize output
of the whitespace-supplier table. -/
theorem completeness_amended_witness :
    (∀ c ∈ CORE_COLS,
      (((normFrame ⟨["supplier", "amount"], [[Cell.str " ", Cell.str "n/a"]]⟩).lookup c).getD
        []).all Cell.isNull = true) ∧
    completeness (normFrame ⟨["supplier", "amount"], [[Cell.str " ", Cell.str "n/a"]]⟩) =
      (0, "limited") :=
  ⟨by decide,
   completeness_amended.2.2 ⟨["supplier", "amount"], [[Cell.str " ", Cell.str "n/a"]]⟩
     (by decide)⟩

/-! ## Shared normalization-structure lemmas (claims C1 and C10) -/

theorem rawOutCol_length (t : RawTable) (k : String) :
    (rawOutCol t k).length = t.rows.length := by
  unfold rawOutCol
  cases (mapColumns t.headers).lookup k <;> simp [colAt]

theorem parseAmount_length (col : List Cell) : (parseAmount col).length = col.length := by
  unfold parseAmount
  split <;> simp

theorem transCol_length (t : RawTable) (k : String) :
    (transCol t k).length = t.rows.length := by
  unfold transCol
  split_ifs <;>
    simp [parseDate, List.length_map, parseAmount_length, rawOutCol_length]

theorem dropMask_length (t : RawTable) : (dropMask t).length = t.rows.length := by
  unfold dropMask
  rw [List.length_zipWith, transCol_length, transCol_length]
  simp

theorem getD_map_of_lt {α β : Type} (f : α → β) (l : List α) (j : ℕ) (hj : j < l.length)
    (d : β) (d' : α) : (l.map f).getD j d = f (l.getD j d') := by
  rw [List.getD_eq_getElem _ _ (by simpa using hj), List.getD_eq_getElem _ _ hj,
    List.getElem_map]

theorem getD_zipWith_of_lt {α β γ : Type} (f : α → β → γ) (l1 : List α) (l2 : List β)
    (i : ℕ) (h1 : i < l1.length) (h2 : i < l2.length) (d : γ) (d1 : α) (d2 : β) :
    (List.zipWith f l1 l2).getD i d = f (l1.getD i d1) (l2.getD i d2) := by
  rw [List.getD_eq_getElem _ _ (by rw [List.length_zipWith]; omega),
    List.getD_eq_getElem _ _ h1, List.getD_eq_getElem _ _ h2, List.getElem_zipWith]

theorem maskFilter_eq_keptIdx {α : Type} (d : α) :
    ∀ (mask : List Bool) (col : List α), mask.length ≤ col.length →
      maskFilter mask col = (keptIdx mask).map (fun i => col.getD i d) := by
  intro mask
  induction mask with
  | nil => intro col _; rfl
  | cons b ms ih =>
      intro col hlen
      cases col with
      | nil => simp at hlen
      | cons a as =>
          have hlen' : ms.length ≤ as.length := by simpa using hlen
          cases b with
          | true =>
              show a :: maskFilter ms as = _
              rw [show keptIdx (true :: ms) = 0 :: (keptIdx ms).map (· + 1) from rfl]
              rw [List.map_cons, List.map_map]
              rw [ih as hlen']
              congr 1
          | false =>
              show maskFilter ms as = _
              rw [show keptIdx (false :: ms) = (keptIdx ms).map (· + 1) from rfl]
              rw [List.map_map]
              rw [ih as hlen']
              exact List.map_congr_left (fun i _ => rfl)

theorem keptIdx_sorted : ∀ mask : List Bool, (keptIdx mask).Sorted (· < ·) := by
  intro mask
  induction mask with
  | nil => simp [keptIdx]
  | cons b t ih =>
      have hmap : ((keptIdx t).map (· + 1)).Sorted (· < ·) :=
        List.Pairwise.map _ (fun a b hab => by omega) ih
      cases b with
      | true =>
          rw [show keptIdx (true :: t) = 0 :: (keptIdx t).map (· + 1) from rfl]
          rw [List.sorted_cons]
          refine ⟨?_, hmap⟩
          intro x hx
          obtain ⟨i, _, rfl⟩ := List.mem_map.mp hx
          omega
      | false =>
          rw [show keptIdx (false :: t) = (keptIdx t).map (· + 1) from rfl]
          exact hmap

theorem mem_keptIdx_lt : ∀ (mask : List Bool) (i : ℕ), i ∈ keptIdx mask → i < mask.length := by
  intro mask
  induction mask with
  | nil => intro i hi; simp [keptIdx] at hi
  | cons b t ih =>
      intro i hi
      cases b with
      | true =>
          rw [show keptIdx (true :: t) = 0 :: (keptIdx t).map (· + 1) from rfl] at hi
          rcases List.mem_cons.mp hi with rfl | hi'
          · simp
          · obtain ⟨j, hj, rfl⟩ := List.mem_map.mp hi'
            have := ih j hj
            simp only [List.length_cons]
            omega
      | false =>
          rw [show keptIdx (false :: t) = (keptIdx t).map (· + 1) from rfl] at hi
          obtain ⟨j, hj, rfl⟩ := List.mem_map.mp hi
          have := ih j hj
          simp only [List.length_cons]
          omega

theorem keptIdx_length : ∀ mask : List Bool, (keptIdx mask).length = mask.count true := by
  intro mask
  induction mask with
  | nil => rfl
  | cons b t ih =>
      cases b with
      | true =>
          rw [show keptIdx (true :: t) = 0 :: (keptIdx t).map (· + 1) from rfl]
          simp only [List.length_cons, List.length_map, ih]
          rw [List.count_cons]
          simp
      | false =>
          rw [show keptIdx (false :: t) = (keptIdx t).map (· + 1) from rfl]
          simp only [List.length_map, ih]
          rw [List.count_cons]
          simp

theorem mem_keptIdx_maskTrue :
    ∀ (mask : List Bool) (i : ℕ), i ∈ keptIdx mask → mask.getD i false = true := by
  intro mask
  induction mask with
  | nil => intro i hi; simp [keptIdx] at hi
  | cons b t ih =>
      intro i hi
      cases b with
      | true =>
          rw [show keptIdx (true :: t) = 0 :: (keptIdx t).map (· + 1) from rfl] at hi
          rcases List.mem_cons.mp hi with rfl | hi'
          · rfl
          · obtain ⟨j, hj, rfl⟩ := List.mem_map.mp hi'
            exact ih j hj
      | false =>
          rw [show keptIdx (false :: t) = (keptIdx t).map (· + 1) from rfl] at hi
          obtain ⟨j, hj, rfl⟩ := List.mem_map.mp hi
          exact ih j hj

theorem normCol_eq_map (t : RawTable) (k : String) :
    normCol t k = (maskFilter (dropMask t) (transCol t k)).map (postCell (stripFlag t k)) := by
  by_cases h : isStringDtype (maskFilter (dropMask t) (transCol t k)) = true
  · simp [normCol, stripFlag, postCell, h]
  · have h' : isStringDtype (maskFilter (dropMask t) (transCol t k)) = false := by
      cases hx : isStringDtype (maskFilter (dropMask t) (transCol t k))
      · rfl
      · exact absurd hx h
    simp only [normCol, stripFlag, h', if_false, Bool.false_eq_true]
    rw [show (postCell false) = (fun c : Cell => c) from funext fun _ => rfl]
    rw [List.map_id']

theorem lookup_map_self {β : Type} (v : String → β) :
    ∀ (ks : List String) (k : String), k ∈ ks →
      (ks.map (fun x => (x, v x))).lookup k = some (v k) := by
  intro ks
  induction ks with
  | nil => intro k hk; simp at hk
  | cons a t ih =>
      intro k hk
      rw [List.map_cons]
      by_cases hka : k = a
      · subst hka
        simp [List.lookup]
      · have hbeq : (k == a) = false := beq_eq_false_iff_ne.mpr hka
        simp only [List.lookup, hbeq]
        exact ih k (by
          rcases List.mem_cons.mp hk with h | h
          · exact absurd h hka
          · exact h)

theorem fieldOf_finalRow (t : RawTable) (i : ℕ) (k : String) (hk : k ∈ CANON_KEYS) :
    fieldOf (finalRow t i) k =
      postCell (stripFlag t k) ((transCol t k).getD i Cell.null) := by
  unfold fieldOf finalRow
  rw [lookup_map_self (fun x => postCell (stripFlag t x) ((transCol t x).getD i Cell.null))
    CANON_KEYS k hk]
  rfl

theorem normCol_getD (t : RawTable) (k : String) (j : ℕ)
    (hj : j < (keptIdx (dropMask t)).length) :
    (normCol t k).getD j Cell.null =
      postCell (stripFlag t k)
        ((transCol t k).getD ((keptIdx (dropMask t)).getD j 0) Cell.null) := by
  rw [normCol_eq_map]
  rw [maskFilter_eq_keptIdx Cell.null (dropMask t) (transCol t k)
    (by rw [dropMask_length, transCol_length])]
  rw [List.map_map]
  rw [getD_map_of_lt _ _ j hj Cell.null 0]
  rfl

theorem nKept_eq (t : RawTable) : nKept t = (keptIdx (dropMask t)).length := by
  rw [keptIdx_length]
  rfl

theorem normRows_eq (t : RawTable) :
    normRows t = (keptIdx (dropMask t)).map (finalRow t) := by
  apply List.ext_getElem?
  intro j
  unfold normRows
  rw [List.getElem?_map, List.getElem?_map]
  by_cases hj : j < nKept t
  · have hjlen : j < (keptIdx (dropMask t)).length := by rw [← nKept_eq]; exact hj
    rw [List.getElem?_eq_getElem (by simpa using hj : j < (List.range (nKept t)).length)]
    rw [List.getElem?_eq_getElem hjlen]
    simp only [Option.map_some', List.getElem_range]
    congr 1
    unfold finalRow
    apply List.map_congr_left
    intro k _
    rw [normCol_getD t k j hjlen]
    rw [List.getD_eq_getElem _ _ hjlen]
  · rw [List.getElem?_eq_none (by simpa using hj : (List.range (nKept t)).length ≤ j)]
    rw [List.getElem?_eq_none (by rw [← nKept_eq]; omega : (keptIdx (dropMask t)).length ≤ j)]
    rfl

/-! ## Claim C10 -/

/-- C10: normalization preserves input row order — there is a strictly
increasing list of surviving input row indices such that the normalized
rows are exactly the per-row transforms of those input rows, in that order;
dropping never reorders, and each output row is derived from its own input
row. -/
theorem row_order_preserved :
    ∀ t : RawTable, mapColumns t.headers ≠ [] →
      ∃ idx : List ℕ, idx.Sorted (· < ·) ∧ (∀ i ∈ idx, i < t.rows.length) ∧
        normRows t = idx.map (finalRow t) := by
  intro t _
  refine ⟨keptIdx (dropMask t), keptIdx_sorted _, ?_, normRows_eq t⟩
  intro i hi
  have h := mem_keptIdx_lt _ i hi
  rw [dropMask_length] at h
  exact h

/-- C10 witness: the order-preservation statement evaluated on a three-row
table whose middle row is dropped. -/
theorem row_order_preserved_witness :
    mapColumns (["Entity", "Supplier", "Amount"] : List String) ≠ [] ∧
    ∃ idx : List ℕ, idx.Sorted (· < ·) ∧
      (∀ i ∈ idx, i < (⟨["Entity", "Supplier", "Amount"],
        [[Cell.null, Cell.str "A", Cell.num 100],
         [Cell.str "HMT", Cell.null, Cell.null],
         [Cell.null, Cell.str "B", Cell.num 200]]⟩ : RawTable).rows.length) ∧
      normRows ⟨["Entity", "Supplier", "Amount"],
        [[Cell.null, Cell.str "A", Cell.num 100],
         [Cell.str "HMT", Cell.null, Cell.null],
         [Cell.null, Cell.str "B", Cell.num 200]]⟩ =
        idx.map (finalRow ⟨["Entity", "Supplier", "Amount"],
          [[Cell.null, Cell.str "A", Cell.num 100],
           [Cell.str "HMT", Cell.null, Cell.null],
           [Cell.null, Cell.str "B", Cell.num 200]]⟩) :=
  ⟨by decide,
   row_order_preserved ⟨["Entity", "Supplier", "Amount"],
     [[Cell.null, Cell.str "A", Cell.num 100],
      [Cell.str "HMT", Cell.null, Cell.null],
      [Cell.null, Cell.str "B", Cell.num 200]]⟩ (by decide)⟩

/-! ## Claim C1 -/

theorem transCol_amount_not_str (t : RawTable) :
    ∀ c ∈ transCol t "amount_gbp", c.isStr = false := by
  intro c hc
  unfold transCol at hc
  rw [if_neg (by decide : ¬(("amount_gbp" : String) = "date"))] at hc
  rw [if_pos rfl] at hc
  obtain ⟨x, _, rfl⟩ := List.mem_map.mp hc
  cases x <;> rfl

/-- C1 counterexample: a source row whose supplier cell is a whitespace-only
string and whose amount is unresolved survives the drop (the string is not
null at drop time) and is then nulled by the empty-string normalization, so
the NormalizedTable contains a row with BOTH supplier and amount_gbp null. -/
theorem drop_invariant_counterexample :
    (normRows ⟨["supplier"], [[Cell.str "  "]]⟩).length = 1 ∧
    fieldOf ((normRows ⟨["supplier"], [[Cell.str "  "]]⟩).headD []) "supplier" =
      Cell.null ∧
    fieldOf ((normRows ⟨["supplier"], [[Cell.str "  "]]⟩).headD []) "amount_gbp" =
      Cell.null := by
  refine ⟨?_, ?_, ?_⟩ <;> with_unfolding_all decide

/-- C1 amended: every normalized row originates from an input row whose
coerced supplier and amount were not BOTH null at drop time (so entity-only
rows are dropped and zero-amount rows are retained); in the output each row
still has supplier or amount_gbp non-null UNLESS its supplier cell was a
string that strips to empty — the drop precedes the empty-string
normalization, so such a row survives with both fields null. -/
theorem drop_row_amended :
    ∀ t : RawTable, mapColumns t.headers ≠ [] →
      ∀ r ∈ normRows t, ∃ i, i < t.rows.length ∧ r = finalRow t i ∧
        ¬((((transCol t "supplier").getD i Cell.null).isNull = true) ∧
          (((transCol t "amount_gbp").getD i Cell.null).isNull = true)) ∧
        (fieldOf r "supplier" ≠ Cell.null ∨ fieldOf r "amount_gbp" ≠ Cell.null ∨
          ∃ s, (transCol t "supplier").getD i Cell.null = Cell.str s ∧
            pyStrip s = "") := by
  intro t _ r hr
  rw [normRows_eq] at hr
  obtain ⟨i, hi, rfl⟩ := List.mem_map.mp hr
  have hib : i < t.rows.length := by
    have h := mem_keptIdx_lt _ i hi
    rw [dropMask_length] at h
    exact h
  have hmask := mem_keptIdx_maskTrue _ i hi
  have hmaskval : (dropMask t).getD i false =
      !(((transCol t "supplier").getD i Cell.null).isNull &&
        ((transCol t "amount_gbp").getD i Cell.null).isNull) := by
    unfold dropMask
    exact getD_zipWith_of_lt _ _ _ i (by rw [transCol_length]; exact hib)
      (by rw [transCol_length]; exact hib) false Cell.null Cell.null
  rw [hmaskval] at hmask
  have hnotboth : ¬((((transCol t "supplier").getD i Cell.null).isNull = true) ∧
      (((transCol t "amount_gbp").getD i Cell.null).isNull = true)) := by
    intro hb
    rw [hb.1, hb.2] at hmask
    simp at hmask
  refine ⟨i, hib, rfl, hnotboth, ?_⟩
  cases hsup : (transCol t "supplier").getD i Cell.null with
  | null =>
      right; left
      have hamt : ((transCol t "amount_gbp").getD i Cell.null).isNull = false := by
        rw [hsup] at hmask
        cases hx : ((transCol t "amount_gbp").getD i Cell.null).isNull
        · rfl
        · rw [hx] at hmask
          simp [Cell.isNull] at hmask
      have hstr : ((transCol t "amount_gbp").getD i Cell.null).isStr = false := by
        apply transCol_amount_not_str
        rw [List.getD_eq_getElem _ _ (by rw [transCol_length]; exact hib)]
        exact List.getElem_mem _
      rw [fieldOf_finalRow t i "amount_gbp" (by decide)]
      cases hc : (transCol t "amount_gbp").getD i Cell.null with
      | null =>
          rw [hc] at hamt
          simp [Cell.isNull] at hamt
      | str s =>
          rw [hc] at hstr
          simp [Cell.isStr] at hstr
      | num q =>
          cases hflag : stripFlag t "amount_gbp" <;>
            simp [postCell, stripEmptyCell]
  | str s =>
      by_cases hes : pyStrip s = ""
      · right; right
        exact ⟨s, rfl, hes⟩
      · left
        rw [fieldOf_finalRow t i "supplier" (by decide), hsup]
        cases hflag : stripFlag t "supplier"
        · simp [postCell]
        · simp [postCell, stripEmptyCell, hes]
  | num q =>
      left
      rw [fieldOf_finalRow t i "supplier" (by decide), hsup]
      cases hflag : stripFlag t "supplier" <;> simp [postCell, stripEmptyCell]

/-- C1 amended witness: the amended drop-row statement evaluated on a
one-row table whose supplier is a real name and whose amount is
unresolved. -/
theorem drop_row_amended_witness :
    mapColumns (["supplier"] : List String) ≠ [] ∧
    (finalRow ⟨["supplier"], [[Cell.str "ACME"]]⟩ 0 ∈
      normRows ⟨["supplier"], [[Cell.str "ACME"]]⟩) ∧
    (∃ i, i < (⟨["supplier"], [[Cell.str "ACME"]]⟩ : RawTable).rows.length ∧
      finalRow ⟨["supplier"], [[Cell.str "ACME"]]⟩ 0 =
        finalRow ⟨["supplier"], [[Cell.str "ACME"]]⟩ i ∧
      ¬((((transCol ⟨["supplier"], [[Cell.str "ACME"]]⟩ "supplier").getD i
            Cell.null).isNull = true) ∧
        (((transCol ⟨["supplier"], [[Cell.str "ACME"]]⟩ "amount_gbp").getD i
            Cell.null).isNull = true)) ∧
      (fieldOf (finalRow ⟨["supplier"], [[Cell.str "ACME"]]⟩ 0) "supplier" ≠ Cell.null ∨
       fieldOf (finalRow ⟨["supplier"], [[Cell.str "ACME"]]⟩ 0) "amount_gbp" ≠ Cell.null ∨
       ∃ s, (transCol ⟨["supplier"], [[Cell.str "ACME"]]⟩ "supplier").getD i Cell.null =
           Cell.str s ∧ pyStrip s = "")) :=
  ⟨by decide, by with_unfolding_all decide,
   drop_row_amended ⟨["supplier"], [[Cell.str "ACME"]]⟩ (by decide)
     (finalRow ⟨["supplier"], [[Cell.str "ACME"]]⟩ 0) (by with_unfolding_all decide)⟩

end HMT
